import Mathlib

/-!
Verification of the migration engine of the Subscription-Management
repository (`server/db/migrations.js` and its near-duplicate copy).

The development shallowly embeds:
  * the SQL statement splitter `parseSQL` (JavaScript strings are modelled
    as `List Char`, so that JavaScript's `split`, `trim`, `toUpperCase`,
    `startsWith`, `endsWith` and `includes` are modelled character by
    character);
  * the migration runner `runMigrations` together with
    `initMigrationsTable`, `getCurrentVersion` and the bookkeeping insert,
    over an abstract database state (schema type `σ`, bookkeeping table as
    an optional list of rows, a connection-scoped foreign-keys pragma);
  * the `try/catch` structure of the `ALTER TABLE ... ADD COLUMN`
    migration steps of the second copy of the file.
-/

namespace Migrations

/-! ## JavaScript string primitives over `List Char` -/

/-- A JavaScript string, modelled as its list of characters. -/
abbrev Str := List Char

/-- Whitespace characters removed by JavaScript's `String.prototype.trim`. -/
def isWsChar (c : Char) : Bool :=
  c = ' ' || c = '\t' || c = '\n' || c = '\r' ||
  c = '\x0b' || c = '\x0c' || c = '\xA0' || c = '\uFEFF'

/-- JavaScript `s.trim()`: drop whitespace from both ends. -/
def jsTrim (s : Str) : Str :=
  ((s.dropWhile isWsChar).reverse.dropWhile isWsChar).reverse

/-- JavaScript `s.toUpperCase()` (ASCII case mapping suffices for the SQL
keywords the splitter inspects). -/
def jsToUpper (s : Str) : Str := s.map Char.toUpper

/-- JavaScript `s.startsWith(pre)`. -/
def jsStartsWith (pre s : Str) : Bool := pre.isPrefixOf s

/-- JavaScript `s.endsWith(suf)`. -/
def jsEndsWith (suf s : Str) : Bool := suf.isSuffixOf s

/-- JavaScript `s.includes(pat)`: substring containment. -/
def jsIncludes (pat : Str) : Str → Bool
  | [] => pat.isPrefixOf []
  | c :: rest => pat.isPrefixOf (c :: rest) || jsIncludes pat rest

/-- JavaScript `sql.split('\n')`: split on newline characters; always
returns at least one (possibly empty) line. -/
def splitLines : Str → List Str
  | [] => [[]]
  | c :: rest =>
    match splitLines rest with
    | [] => [[c]]
    | l :: ls => if c = '\n' then [] :: l :: ls else (c :: l) :: ls

/-! ## The statement splitter `parseSQL` (migrations.js lines 322-362) -/

/-- One step of state of the splitter loop: the lines still to process, the
`currentStatement` buffer, and the `inTrigger` flag.  Mirrors the `for`
loop of `parseSQL` plus the final flush of the residual buffer. -/
def parseSQLGo : List Str → Str → Bool → List Str
  | [], cur, _ => if jsTrim cur = [] then [] else [jsTrim cur]
  | line :: rest, cur, inTrigger =>
    let trimmedLine := jsTrim line
    if trimmedLine = [] then parseSQLGo rest cur inTrigger
    else
      let inTrigger :=
        if jsStartsWith "CREATE TRIGGER".data (jsToUpper trimmedLine) then true
        else inTrigger
      let cur := cur ++ line ++ ['\n']
      if jsEndsWith [';'] trimmedLine then
        if inTrigger && jsIncludes "END;".data (jsToUpper trimmedLine) then
          jsTrim cur :: parseSQLGo rest [] false
        else if !inTrigger then
          jsTrim cur :: parseSQLGo rest [] false
        else
          parseSQLGo rest cur inTrigger
      else
        parseSQLGo rest cur inTrigger

/-- `parseSQL(sql)`: split raw SQL text into executable statements,
keeping multi-line trigger bodies together. -/
def parseSQL (sql : Str) : List Str :=
  parseSQLGo (splitLines sql) [] false

/-- The buffer built from a group of lines: each line followed by `'\n'`,
as `currentStatement += line + '\n'` accumulates it. -/
def joinNl (g : List Str) : Str := (g.map (fun l => l ++ ['\n'])).flatten

/-! ## Database state and the migration runner (migrations.js lines 24-85)

The database is modelled abstractly: a schema of arbitrary type `σ`, the
`migrations` bookkeeping table as `Option (List MigRow)` (`none` while the
table does not exist, as on a fresh database file), and the
connection-scoped `foreign_keys` pragma.  A migration descriptor's `up`
action mutates the schema and may raise (`Except`).  `better-sqlite3`'s
`db.transaction` rolls every change of the wrapped function back when it
throws, which the embedding renders by returning the pre-transaction
state alongside the propagated error. -/

/-- One row of the `migrations` bookkeeping table (the `id` and
`executed_at` columns play no role in the claims). -/
structure MigRow where
  version : Nat
  name : String
deriving DecidableEq, Repr

/-- The abstract database state. -/
structure DBState (σ : Type) where
  foreignKeys : Bool
  migTable : Option (List MigRow)
  schema : σ
deriving DecidableEq, Repr

/-- A migration descriptor of the registry `this.migrations`. -/
structure Migration (σ : Type) where
  version : Nat
  name : String
  up : σ → Except String σ

/-- Observable events of one run, used to state "no transaction is
opened" and "no action is invoked". -/
inductive MigEvent where
  | txBegin (v : Nat)
  | actionRun (v : Nat)
  | rowInsert (v : Nat)
  | txCommit (v : Nat)
  | txRollback (v : Nat)
deriving DecidableEq, Repr

/-- `this.db.pragma('foreign_keys = ON')`: connection-scoped, outside any
transaction. -/
def setForeignKeysPragma (s : DBState σ) : DBState σ :=
  { s with foreignKeys := true }

/-- `initMigrationsTable()`: `CREATE TABLE IF NOT EXISTS migrations ...` —
creates the empty bookkeeping table when absent, otherwise no-op. -/
def initMigrationsTable (s : DBState σ) : DBState σ :=
  match s.migTable with
  | none => { s with migTable := some [] }
  | some _ => s

/-- The versions recorded in the bookkeeping table (empty when the table
is missing). -/
def recordedVersions (s : DBState σ) : List Nat :=
  match s.migTable with
  | none => []
  | some rows => rows.map MigRow.version

/-- `SELECT MAX(version) as version FROM migrations`: fails when the
table is missing, otherwise yields the maximum recorded version (`NULL`,
read back as `0` by `result.version || 0`, when the table is empty). -/
def selectMaxVersion (s : DBState σ) : Except String Nat :=
  match s.migTable with
  | none => Except.error "no such table: migrations"
  | some rows => Except.ok ((rows.map MigRow.version).foldr max 0)

/-- `getCurrentVersion()`: the `try { ... } catch { return 0 }` around the
`MAX(version)` query. -/
def getCurrentVersion (s : DBState σ) : Nat :=
  match selectMaxVersion s with
  | Except.error _ => 0
  | Except.ok v => v

/-- `INSERT INTO migrations (version, name) VALUES (?, ?)`: fails when
the table is missing or the `UNIQUE` constraint on `version` is violated,
otherwise appends one row. -/
def insertMigration (v : Nat) (n : String) (s : DBState σ) :
    Except String (DBState σ) :=
  match s.migTable with
  | none => Except.error "no such table: migrations"
  | some rows =>
    if rows.any (fun r => r.version = v) then
      Except.error "UNIQUE constraint failed: migrations.version"
    else
      Except.ok { s with migTable := some (rows ++ [⟨v, n⟩]) }

/-- The `for (const migration of pendingMigrations)` loop.  Each iteration
runs `migration.up()` and the bookkeeping insert inside one transaction;
on a throw the transaction rolls back (the pre-transaction state is kept)
and the error propagates with the offending version, aborting the loop.
Returns the final state, the event trace, and the propagated error, if
any. -/
def runPending : List (Migration σ) → DBState σ →
    DBState σ × List MigEvent × Option (Nat × String)
  | [], s => (s, [], none)
  | m :: rest, s =>
    match m.up s.schema with
    | Except.error e =>
      (s, [MigEvent.txBegin m.version, MigEvent.actionRun m.version,
           MigEvent.txRollback m.version], some (m.version, e))
    | Except.ok sch =>
      match insertMigration m.version m.name { s with schema := sch } with
      | Except.error e =>
        (s, [MigEvent.txBegin m.version, MigEvent.actionRun m.version,
             MigEvent.txRollback m.version], some (m.version, e))
      | Except.ok s2 =>
        let r := runPending rest s2
        (r.1, MigEvent.txBegin m.version :: MigEvent.actionRun m.version ::
              MigEvent.rowInsert m.version :: MigEvent.txCommit m.version ::
              r.2.1, r.2.2)

/-- `runMigrations()`: set the pragma, ensure the bookkeeping table,
read the current version once, select the pending descriptors
(`version > currentVersion`, registry order) and run them.  (The early
`return` on an empty pending set coincides with `runPending [] _`.) -/
def runMigrations (migs : List (Migration σ)) (s : DBState σ) :
    DBState σ × List MigEvent × Option (Nat × String) :=
  let s1 := initMigrationsTable (setForeignKeysPragma s)
  let currentVersion := getCurrentVersion s1
  let pendingMigrations := migs.filter (fun m => currentVersion < m.version)
  runPending pendingMigrations s1

/-! ## The `ALTER TABLE ... ADD COLUMN` migration steps (second copy,
`migration_002_add_notification_system` and
`migration_004_add_repeat_notification_setting`)

The statements these migrations execute are identified abstractly; the
database's `db.exec` is an arbitrary function from statement and schema
state to `Except`, so the theorems quantify over every possible error
behaviour of the underlying engine. -/

/-- The statements executed by migrations 002 and 004 of the second copy
of the file, in source order. -/
inductive SqlStmt where
  | alterSettingsAddLanguage
  | createNotificationSettings
  | createNotificationChannels
  | createNotificationHistory
  | createNotificationTemplates
  | createNotificationIndexes
  | insertDefaultNotificationSettings
  | insertDefaultNotificationTemplates
  | alterAddRepeatNotification
  | updateRenewalReminderRepeat
deriving DecidableEq, Repr

/-- The `try { this.db.exec(alter...) } catch (error) { console.log(...) }`
pattern: run the statement; on any thrown error, log and continue with the
state unchanged (the failed statement has no effect). -/
def tryAddColumn (exec : SqlStmt → σ → Except String σ) (stmt : SqlStmt)
    (s : σ) : σ :=
  match exec stmt s with
  | Except.error _ => s
  | Except.ok s2 => s2

/-- The statements of `migration_002_add_notification_system` after the
guarded `ALTER TABLE settings ADD COLUMN language ...` step; each is
executed outside any `try`, so its error propagates. -/
def migration_002_afterAlter (exec : SqlStmt → σ → Except String σ)
    (s : σ) : Except String σ := do
  let s ← exec SqlStmt.createNotificationSettings s
  let s ← exec SqlStmt.createNotificationChannels s
  let s ← exec SqlStmt.createNotificationHistory s
  let s ← exec SqlStmt.createNotificationTemplates s
  let s ← exec SqlStmt.createNotificationIndexes s
  let s ← exec SqlStmt.insertDefaultNotificationSettings s
  exec SqlStmt.insertDefaultNotificationTemplates s

/-- `migration_002_add_notification_system()`: the guarded `ALTER TABLE`
step followed by the unguarded statements. -/
def migration_002_add_notification_system
    (exec : SqlStmt → σ → Except String σ) (s : σ) : Except String σ :=
  migration_002_afterAlter exec
    (tryAddColumn exec SqlStmt.alterSettingsAddLanguage s)

/-- `migration_004_add_repeat_notification_setting()`: the guarded
`ALTER TABLE notification_settings ADD COLUMN repeat_notification ...`
step followed by the unguarded `UPDATE`. -/
def migration_004_add_repeat_notification_setting
    (exec : SqlStmt → σ → Except String σ) (s : σ) : Except String σ :=
  exec SqlStmt.updateRenewalReminderRepeat
    (tryAddColumn exec SqlStmt.alterAddRepeatNotification s)

/-- Sequential unguarded execution of a list of statements: each
statement runs on the state left by the previous one and any error
aborts the sequence immediately. -/
def execSeq (exec : SqlStmt → σ → Except String σ) :
    List SqlStmt → σ → Except String σ
  | [], s => Except.ok s
  | st :: rest, s =>
    match exec st s with
    | Except.error e => Except.error e
    | Except.ok s2 => execSeq exec rest s2

/-- The seven unguarded statements of
`migration_002_add_notification_system`, in source order. -/
def migration002Stmts : List SqlStmt :=
  [SqlStmt.createNotificationSettings,
   SqlStmt.createNotificationChannels,
   SqlStmt.createNotificationHistory,
   SqlStmt.createNotificationTemplates,
   SqlStmt.createNotificationIndexes,
   SqlStmt.insertDefaultNotificationSettings,
   SqlStmt.insertDefaultNotificationTemplates]

/-! ## Auxiliary definitions used by the statements of the claims -/

/-- The migration version an event belongs to. -/
def eventVersion : MigEvent → Nat
  | MigEvent.txBegin v => v
  | MigEvent.actionRun v => v
  | MigEvent.rowInsert v => v
  | MigEvent.txCommit v => v
  | MigEvent.txRollback v => v

/-- The recorded set is a prefix-closed subset of the registry versions:
every recorded version belongs to the registry, and no registry version
below a recorded one is missing from the record. -/
def PrefixClosed (reg recorded : List Nat) : Prop :=
  (∀ w ∈ recorded, w ∈ reg) ∧
  (∀ u ∈ reg, ∀ w ∈ recorded, u < w → u ∈ recorded)

/-- A statement executor whose `ALTER TABLE settings ADD COLUMN language`
fails with an error that is not a duplicate-column condition, while every
other statement succeeds. -/
def execDiskError : SqlStmt → Nat → Except String Nat :=
  fun st n =>
    if st = SqlStmt.alterSettingsAddLanguage then
      Except.error "disk I/O error"
    else Except.ok n

/-- A statement executor whose last unguarded statement of migration 002
(`INSERT ... notification_templates`) fails, while every other statement
succeeds. -/
def execLateError : SqlStmt → Nat → Except String Nat :=
  fun st n =>
    if st = SqlStmt.insertDefaultNotificationTemplates then
      Except.error "constraint failed"
    else Except.ok n

/-- A three-entry registry whose version-2 action throws: versions 1 and 3
succeed when reached. -/
def exRegistryBoom : List (Migration Nat) :=
  [⟨1, "one", fun n => Except.ok (n + 1)⟩,
   ⟨2, "two", fun _ => Except.error "boom"⟩,
   ⟨3, "three", fun n => Except.ok (n + 1)⟩]

/-- A two-entry registry whose actions always succeed. -/
def exRegistryOk : List (Migration Nat) :=
  [⟨1, "one", fun n => Except.ok (n + 1)⟩,
   ⟨2, "two", fun n => Except.ok (n + 1)⟩]

/-- A fresh database: no bookkeeping table, pragma not yet set. -/
def exFreshDB : DBState Nat := ⟨false, none, 0⟩

/-- The `scheduler_settings_updated_at` trigger of migration 003: a
multi-line trigger whose body contains a line ending in `;` before the
closing `END;`. -/
def exTriggerSQL : Str :=
  ("CREATE TRIGGER IF NOT EXISTS scheduler_settings_updated_at\n" ++
   "AFTER UPDATE ON scheduler_settings\n" ++
   "FOR EACH ROW\n" ++
   "BEGIN\n" ++
   "    UPDATE scheduler_settings SET updated_at = CURRENT_TIMESTAMP WHERE id = NEW.id;\n" ++
   "END;").data

end Migrations

namespace Migrations

/-! ## Helper lemmas about versions and the bookkeeping table -/

theorem le_foldr_max (l : List Nat) : ∀ w ∈ l, w ≤ l.foldr max 0 := by
  induction l with
  | nil => intro w hw; cases hw
  | cons a l ih =>
    intro w hw
    rcases List.mem_cons.mp hw with h | h
    · subst h; exact le_max_left _ _
    · exact le_trans (ih w h) (le_max_right _ _)

theorem foldr_max_mem (l : List Nat) (h : l ≠ []) : l.foldr max 0 ∈ l := by
  induction l with
  | nil => cases h rfl
  | cons a l ih =>
    cases l with
    | nil => simp
    | cons b t =>
      rcases le_or_lt ((b :: t).foldr max 0) a with hle | hlt
      · have hfold : (a :: b :: t).foldr max 0 = a := by
          show max a ((b :: t).foldr max 0) = a
          exact Nat.max_eq_left hle
        rw [hfold]
        exact List.mem_cons_self _ _
      · have hfold : (a :: b :: t).foldr max 0 = (b :: t).foldr max 0 := by
          show max a ((b :: t).foldr max 0) = _
          exact Nat.max_eq_right (le_of_lt hlt)
        rw [hfold]
        exact List.mem_cons_of_mem _ (ih (by simp))

theorem mem_recorded_le_current (s : DBState σ) (w : Nat)
    (h : w ∈ recordedVersions s) : w ≤ getCurrentVersion s := by
  cases hmt : s.migTable with
  | none => simp [recordedVersions, hmt] at h
  | some rows =>
    simp only [recordedVersions, hmt] at h
    simpa [getCurrentVersion, selectMaxVersion, hmt] using
      le_foldr_max _ w h

theorem current_mem_recorded (s : DBState σ)
    (h : recordedVersions s ≠ []) :
    getCurrentVersion s ∈ recordedVersions s := by
  cases hmt : s.migTable with
  | none => simp [recordedVersions, hmt] at h
  | some rows =>
    simp only [recordedVersions, hmt] at h ⊢
    simpa [getCurrentVersion, selectMaxVersion, hmt] using
      foldr_max_mem _ h

theorem current_of_recorded_nil (s : DBState σ)
    (h : recordedVersions s = []) : getCurrentVersion s = 0 := by
  cases hmt : s.migTable with
  | none => simp [getCurrentVersion, selectMaxVersion, hmt]
  | some rows =>
    simp only [recordedVersions, hmt] at h
    simp [getCurrentVersion, selectMaxVersion, hmt, h]

theorem recorded_pragma (s : DBState σ) :
    recordedVersions (setForeignKeysPragma s) = recordedVersions s := rfl

theorem recorded_init (s : DBState σ) :
    recordedVersions (initMigrationsTable s) = recordedVersions s := by
  cases hmt : s.migTable <;>
    simp [recordedVersions, initMigrationsTable, hmt]

/-! ## Structural lemmas about `runPending` -/

theorem insert_recorded {s s2 : DBState σ} {v : Nat} {n : String}
    (h : insertMigration v n s = Except.ok s2) :
    recordedVersions s2 = recordedVersions s ++ [v] ∧
    s2.foreignKeys = s.foreignKeys ∧
    (∀ rows, s.migTable = some rows →
      s2.migTable = some (rows ++ [⟨v, n⟩])) := by
  cases hmt : s.migTable with
  | none => simp [insertMigration, hmt] at h
  | some rows =>
    by_cases hany : rows.any (fun r => r.version = v)
    · simp [insertMigration, hmt, hany] at h
    · simp only [insertMigration, hmt, hany, if_neg, Bool.false_eq_true,
        not_false_eq_true, if_false, Except.ok.injEq] at h
      subst h
      refine ⟨?_, rfl, ?_⟩
      · simp [recordedVersions, hmt]
      · intro rows2 h2
        have hrr : rows = rows2 := by injection h2
        subst hrr
        rfl

theorem runPending_recorded (pending : List (Migration σ)) (s : DBState σ) :
    ∃ done rest, pending = done ++ rest ∧
      recordedVersions (runPending pending s).1 =
        recordedVersions s ++ done.map Migration.version := by
  induction pending generalizing s with
  | nil => exact ⟨[], [], rfl, by simp [runPending]⟩
  | cons m pending ih =>
    cases hup : m.up s.schema with
    | error e => exact ⟨[], m :: pending, rfl, by simp [runPending, hup]⟩
    | ok sch =>
      cases hins : insertMigration m.version m.name { s with schema := sch } with
      | error e =>
        exact ⟨[], m :: pending, rfl, by simp [runPending, hup, hins]⟩
      | ok s2 =>
        obtain ⟨done, rest, hsplit, hrec⟩ := ih s2
        refine ⟨m :: done, rest, by rw [hsplit]; rfl, ?_⟩
        have h2 := (insert_recorded hins).1
        simp only [runPending, hup, hins]
        rw [hrec, h2]
        simp [recordedVersions]

theorem runPending_none {pending : List (Migration σ)} {s s' : DBState σ}
    {evs : List MigEvent}
    (h : runPending pending s = (s', evs, none)) :
    s'.foreignKeys = s.foreignKeys ∧
    (∀ rows, s.migTable = some rows →
      s'.migTable = some (rows ++ pending.map (fun m => ⟨m.version, m.name⟩))) := by
  induction pending generalizing s evs with
  | nil =>
    simp only [runPending, Prod.mk.injEq] at h
    obtain ⟨h1, -, -⟩ := h
    subst h1
    exact ⟨rfl, fun rows hr => by simp [hr]⟩
  | cons m pending ih =>
    cases hup : m.up s.schema with
    | error e => simp [runPending, hup] at h
    | ok sch =>
      cases hins : insertMigration m.version m.name { s with schema := sch } with
      | error e => simp [runPending, hup, hins] at h
      | ok s2 =>
        simp only [runPending, hup, hins] at h
        cases hrp : runPending pending s2 with
        | mk a bc =>
          rw [hrp] at h
          cases bc with
          | mk b c =>
            simp only [Prod.mk.injEq] at h
            obtain ⟨ha, -, hc⟩ := h
            subst ha
            subst hc
            obtain ⟨hfk, hmt⟩ := ih hrp
            obtain ⟨hrec, hfk2, hrows⟩ := insert_recorded hins
            refine ⟨by rw [hfk, hfk2], ?_⟩
            intro rows hr
            have := hmt _ (hrows rows hr)
            rw [this]
            simp

theorem runPending_events (pending : List (Migration σ)) (s : DBState σ) :
    ∀ ev ∈ (runPending pending s).2.1,
      eventVersion ev ∈ pending.map Migration.version := by
  induction pending generalizing s with
  | nil => intro ev hev; simp [runPending] at hev
  | cons m pending ih =>
    intro ev hev
    cases hup : m.up s.schema with
    | error e =>
      simp only [runPending, hup, List.mem_cons, List.not_mem_nil,
        or_false] at hev
      rcases hev with rfl | rfl | rfl <;> simp [eventVersion]
    | ok sch =>
      cases hins : insertMigration m.version m.name { s with schema := sch } with
      | error e =>
        simp only [runPending, hup, hins, List.mem_cons, List.not_mem_nil,
          or_false] at hev
        rcases hev with rfl | rfl | rfl <;> simp [eventVersion]
      | ok s2 =>
        simp only [runPending, hup, hins, List.mem_cons] at hev
        rcases hev with h | h | h | h | h
        · subst h; simp [eventVersion]
        · subst h; simp [eventVersion]
        · subst h; simp [eventVersion]
        · subst h; simp [eventVersion]
        · exact List.mem_cons_of_mem _ (ih s2 ev h)

theorem runPending_error {pending : List (Migration σ)} {s s' : DBState σ}
    {evs : List MigEvent} {v : Nat} {e : String}
    (h : runPending pending s = (s', evs, some (v, e))) :
    ∃ done m rest devs,
      pending = done ++ m :: rest ∧ m.version = v ∧
      runPending done s = (s', devs, none) ∧
      evs = devs ++ [MigEvent.txBegin v, MigEvent.actionRun v,
                     MigEvent.txRollback v] := by
  induction pending generalizing s evs with
  | nil => simp [runPending] at h
  | cons m pending ih =>
    cases hup : m.up s.schema with
    | error e2 =>
      simp only [runPending, hup, Prod.mk.injEq, Option.some.injEq] at h
      obtain ⟨h1, h2, hv, he⟩ := h
      subst hv
      refine ⟨[], m, pending, [], rfl, rfl, ?_, ?_⟩
      · simp [runPending, h1]
      · simpa using h2.symm
    | ok sch =>
      cases hins : insertMigration m.version m.name { s with schema := sch } with
      | error e2 =>
        simp only [runPending, hup, hins, Prod.mk.injEq, Option.some.injEq] at h
        obtain ⟨h1, h2, hv, he⟩ := h
        subst hv
        refine ⟨[], m, pending, [], rfl, rfl, ?_, ?_⟩
        · simp [runPending, h1]
        · simpa using h2.symm
      | ok s2 =>
        simp only [runPending, hup, hins] at h
        cases hrp : runPending pending s2 with
        | mk a bc =>
          rw [hrp] at h
          cases bc with
          | mk b c =>
            simp only [Prod.mk.injEq] at h
            obtain ⟨ha, hb, hc⟩ := h
            subst ha
            subst hc
            obtain ⟨done, m2, rest, devs, hsplit, hv, hnone, hevs⟩ :=
              ih (by rw [hrp])
            refine ⟨m :: done, m2, rest, MigEvent.txBegin m.version ::
              MigEvent.actionRun m.version :: MigEvent.rowInsert m.version ::
              MigEvent.txCommit m.version :: devs, by rw [hsplit]; rfl, hv,
              ?_, ?_⟩
            · simp only [runPending, hup, hins, hnone]
            · rw [← hb, hevs]
              simp

theorem runPending_action_count {pending : List (Migration σ)}
    {s s' : DBState σ} {evs : List MigEvent}
    (h : runPending pending s = (s', evs, none)) (w : Nat) :
    evs.countP (fun ev => decide (ev = MigEvent.actionRun w)) =
    pending.countP (fun m => decide (m.version = w)) := by
  induction pending generalizing s evs with
  | nil =>
    simp only [runPending, Prod.mk.injEq] at h
    obtain ⟨-, h2, -⟩ := h
    subst h2
    simp
  | cons m pending ih =>
    cases hup : m.up s.schema with
    | error e => simp [runPending, hup] at h
    | ok sch =>
      cases hins : insertMigration m.version m.name { s with schema := sch } with
      | error e => simp [runPending, hup, hins] at h
      | ok s2 =>
        simp only [runPending, hup, hins] at h
        cases hrp : runPending pending s2 with
        | mk a bc =>
          rw [hrp] at h
          cases bc with
          | mk b c =>
            simp only [Prod.mk.injEq] at h
            obtain ⟨ha, hb, hc⟩ := h
            subst ha
            subst hb
            subst hc
            have hcnt := ih hrp
            simp only [List.countP_cons, hcnt]
            by_cases hvw : m.version = w
            · subst hvw
              simp
            · simp [hvw]

/-! ## Further helper lemmas about the runner -/

theorem init_migTable (s : DBState σ) :
    ∃ rows, (initMigrationsTable s).migTable = some rows ∧
      recordedVersions (initMigrationsTable s) = rows.map MigRow.version := by
  cases hmt : s.migTable with
  | none =>
    exact ⟨[], by simp [initMigrationsTable, hmt],
      by simp [initMigrationsTable, recordedVersions, hmt]⟩
  | some rows =>
    exact ⟨rows, by simp [initMigrationsTable, hmt],
      by simp [initMigrationsTable, recordedVersions, hmt]⟩

theorem pragma_id (s : DBState σ) (h : s.foreignKeys = true) :
    setForeignKeysPragma s = s := by
  cases s with
  | mk fk mt sch =>
    simp only [setForeignKeysPragma]
    simp only at h
    rw [h]

theorem init_id (s : DBState σ) (rows : List MigRow)
    (h : s.migTable = some rows) : initMigrationsTable s = s := by
  simp [initMigrationsTable, h]

theorem getCurrentVersion_congr (s t : DBState σ)
    (h : s.migTable = t.migTable) :
    getCurrentVersion s = getCurrentVersion t := by
  unfold getCurrentVersion selectMaxVersion
  rw [h]

theorem runMigrations_noop (migs : List (Migration σ)) (s : DBState σ)
    (h : ∀ m ∈ migs, m.version ≤
      getCurrentVersion (initMigrationsTable (setForeignKeysPragma s))) :
    runMigrations migs s =
      (initMigrationsTable (setForeignKeysPragma s), [], none) := by
  have hfil : migs.filter (fun m =>
      getCurrentVersion (initMigrationsTable (setForeignKeysPragma s)) <
        m.version) = [] := by
    rw [List.filter_eq_nil_iff]
    intro m hm
    simp only [decide_eq_true_eq, not_lt]
    exact h m hm
  simp only [runMigrations]
  rw [hfil]
  rfl

theorem countP_version_eq_one (migs : List (Migration σ))
    (hsort : (migs.map Migration.version).Pairwise (· < ·))
    (m : Migration σ) (hm : m ∈ migs) :
    migs.countP (fun m2 => decide (m2.version = m.version)) = 1 := by
  induction migs with
  | nil => cases hm
  | cons a t ih =>
    rw [List.map_cons, List.pairwise_cons] at hsort
    obtain ⟨hcross, htail⟩ := hsort
    rw [List.countP_cons]
    rcases List.mem_cons.mp hm with rfl | hmt
    · have hzero : t.countP (fun m2 => decide (m2.version = m.version)) = 0 := by
        rw [List.countP_eq_zero]
        intro m2 hm2
        have := hcross m2.version (List.mem_map_of_mem _ hm2)
        simp only [decide_eq_true_eq]
        omega
      simp [hzero]
    · have hne : a.version ≠ m.version := by
        have := hcross m.version (List.mem_map_of_mem _ hmt)
        omega
      simp [ih htail hmt, hne]

/-! ## Claim C6 -/

/-- C6: for every database state, `getCurrentVersion` returns the maximum
version recorded in the bookkeeping table (it dominates every recorded
version and, when anything is recorded, is itself recorded), returns zero
when no version is recorded, and returns zero instead of propagating the
error when reading the table fails. -/
theorem claim_C6 (σ : Type) (s : DBState σ) :
    (∀ w ∈ recordedVersions s, w ≤ getCurrentVersion s) ∧
    (getCurrentVersion s ∈ recordedVersions s ∨ getCurrentVersion s = 0) ∧
    (∀ e, selectMaxVersion s = Except.error e → getCurrentVersion s = 0) ∧
    (recordedVersions s = [] → getCurrentVersion s = 0) := by
  refine ⟨fun w hw => mem_recorded_le_current s w hw, ?_, ?_,
    current_of_recorded_nil s⟩
  · by_cases h : recordedVersions s = []
    · exact Or.inr (current_of_recorded_nil s h)
    · exact Or.inl (current_mem_recorded s h)
  · intro e he
    simp [getCurrentVersion, he]

/-- C6 witness: on a database without the bookkeeping table the
`MAX(version)` query fails and `getCurrentVersion` returns `0`. -/
theorem claim_C6_witness :
    getCurrentVersion (⟨true, none, 0⟩ : DBState Nat) = 0 :=
  (claim_C6 Nat ⟨true, none, 0⟩).2.2.1 "no such table: migrations" rfl

/-! ## Claim C7 -/

/-- C7: when no registry version exceeds the current recorded version
(the pending set is empty), `runMigrations` produces no event (so no
transaction is opened and no action is invoked), reports no error, and
leaves the state untouched apart from the connection pragma and the
idempotent creation of the bookkeeping table; in particular the recorded
versions are unchanged (no row is written). -/
theorem claim_C7 (σ : Type) (migs : List (Migration σ)) (s : DBState σ)
    (h : ∀ m ∈ migs, m.version ≤
      getCurrentVersion (initMigrationsTable (setForeignKeysPragma s))) :
    runMigrations migs s =
      (initMigrationsTable (setForeignKeysPragma s), [], none) ∧
    recordedVersions (runMigrations migs s).1 = recordedVersions s := by
  have hrun := runMigrations_noop migs s h
  refine ⟨hrun, ?_⟩
  rw [hrun, recorded_init, recorded_pragma]

/-- C7 witness: a single-entry registry already recorded in the
bookkeeping table leads to an event-free, error-free, write-free run. -/
theorem claim_C7_witness :
    runMigrations [(⟨1, "noop", fun n => Except.ok n⟩ : Migration Nat)]
        ⟨false, some [⟨1, "initial"⟩], 0⟩ =
      (initMigrationsTable (setForeignKeysPragma ⟨false, some [⟨1, "initial"⟩], 0⟩),
        [], none) :=
  (claim_C7 Nat [⟨1, "noop", fun n => Except.ok n⟩]
    ⟨false, some [⟨1, "initial"⟩], 0⟩ (by decide)).1

/-! ## Helper lemmas about the unguarded statement sequence -/

theorem exceptBind_ok {α β : Type} (a : α) (f : α → Except String β) :
    (Except.ok a >>= f) = f a := rfl

theorem exceptBind_error {α β : Type} (e : String)
    (f : α → Except String β) :
    ((Except.error e : Except String α) >>= f) =
      (Except.error e : Except String β) := rfl

/-- The unguarded part of migration 002 is exactly the sequential
execution of its seven statements in source order. -/
theorem migration_002_afterAlter_eq_execSeq (σ : Type)
    (exec : SqlStmt → σ → Except String σ) (s : σ) :
    migration_002_afterAlter exec s = execSeq exec migration002Stmts s := by
  simp only [migration_002_afterAlter, migration002Stmts]
  cases h1 : exec SqlStmt.createNotificationSettings s with
  | error e => simp only [execSeq, h1, exceptBind_error]
  | ok s1 =>
    simp only [execSeq, h1, exceptBind_ok]
    cases h2 : exec SqlStmt.createNotificationChannels s1 with
    | error e => simp only [execSeq, h2, exceptBind_error]
    | ok s2 =>
      simp only [execSeq, h2, exceptBind_ok]
      cases h3 : exec SqlStmt.createNotificationHistory s2 with
      | error e => simp only [execSeq, h3, exceptBind_error]
      | ok s3 =>
        simp only [execSeq, h3, exceptBind_ok]
        cases h4 : exec SqlStmt.createNotificationTemplates s3 with
        | error e => simp only [execSeq, h4, exceptBind_error]
        | ok s4 =>
          simp only [execSeq, h4, exceptBind_ok]
          cases h5 : exec SqlStmt.createNotificationIndexes s4 with
          | error e => simp only [execSeq, h5, exceptBind_error]
          | ok s5 =>
            simp only [execSeq, h5, exceptBind_ok]
            cases h6 : exec SqlStmt.insertDefaultNotificationSettings s5 with
            | error e => simp only [execSeq, h6, exceptBind_error]
            | ok s6 =>
              simp only [execSeq, h6, exceptBind_ok]
              cases h7 : exec SqlStmt.insertDefaultNotificationTemplates s6 with
              | error e => simp only [execSeq, h7]
              | ok s7 => simp only [execSeq, h7]

/-- If the statements before `st` all succeed and `st` fails, the whole
unguarded sequence fails with `st`'s error. -/
theorem execSeq_error (σ : Type) (exec : SqlStmt → σ → Except String σ) :
    ∀ (done : List SqlStmt) (st : SqlStmt) (rest : List SqlStmt)
      (s s2 : σ) (e : String),
      execSeq exec done s = Except.ok s2 →
      exec st s2 = Except.error e →
      execSeq exec (done ++ st :: rest) s = Except.error e := by
  intro done
  induction done with
  | nil =>
    intro st rest s s2 e h1 h2
    have hs : s = s2 := by
      simpa [execSeq] using h1
    subst hs
    simp [execSeq, h2]
  | cons a t ih =>
    intro st rest s s2 e h1 h2
    cases ha : exec a s with
    | error e2 => simp [execSeq, ha] at h1
    | ok s3 =>
      simp only [execSeq, ha] at h1
      rw [List.cons_append]
      simp only [execSeq, ha]
      exact ih st rest s3 s2 e h1 h2

/-! ## Claim C5 -/

/-- C5 counterexample: the `try/catch` around the
`ALTER TABLE settings ADD COLUMN language` step swallows an error that is
not a duplicate-column condition: with an executor whose `ALTER` fails
with `disk I/O error`, `migration_002_add_notification_system` still
succeeds, so the error is not propagated, contradicting the claim that
only "the column already exists" failures are caught. -/
theorem claim_C5_counterexample :
    execDiskError SqlStmt.alterSettingsAddLanguage 0 =
      Except.error "disk I/O error" ∧
    "disk I/O error" ≠ "duplicate column name: language" ∧
    migration_002_add_notification_system execDiskError 0 = Except.ok 0 := by
  refine ⟨rfl, ?_, rfl⟩
  decide

/-- C5 amended: every error raised by the guarded
`ALTER TABLE ... ADD COLUMN` statements of migrations 002 and 004 — not
only "the column already exists" — is caught without being re-raised and
the migration proceeds with the remaining statements; every error raised
by any of the unguarded statements of those migrations — any of the seven
statements of migration 002 (quantified over every position in the
sequence) and migration 004's `UPDATE` — is propagated. -/
theorem claim_C5_patched (σ : Type) (exec : SqlStmt → σ → Except String σ)
    (s : σ) (e : String) :
    (exec SqlStmt.alterSettingsAddLanguage s = Except.error e →
      migration_002_add_notification_system exec s =
        migration_002_afterAlter exec s) ∧
    (exec SqlStmt.alterAddRepeatNotification s = Except.error e →
      migration_004_add_repeat_notification_setting exec s =
        exec SqlStmt.updateRenewalReminderRepeat s) ∧
    (∀ (done : List SqlStmt) (st : SqlStmt) (rest : List SqlStmt) (s2 : σ),
      migration002Stmts = done ++ st :: rest →
      execSeq exec done s = Except.ok s2 →
      exec st s2 = Except.error e →
      migration_002_afterAlter exec s = Except.error e) ∧
    (exec SqlStmt.updateRenewalReminderRepeat
        (tryAddColumn exec SqlStmt.alterAddRepeatNotification s) =
          Except.error e →
      migration_004_add_repeat_notification_setting exec s =
        Except.error e) := by
  refine ⟨?_, ?_, ?_, ?_⟩
  · intro h
    simp [migration_002_add_notification_system, tryAddColumn, h]
  · intro h
    simp [migration_004_add_repeat_notification_setting, tryAddColumn, h]
  · intro done st rest s2 hsplit h1 h2
    rw [migration_002_afterAlter_eq_execSeq, hsplit]
    exact execSeq_error σ exec done st rest s s2 e h1 h2
  · intro h
    rw [migration_004_add_repeat_notification_setting, h]

/-- C5 amended witness: under the disk-error executor the guarded
`ALTER` failure is swallowed and migration 002 proceeds to the unguarded
statements; under the late-error executor the failure of the last
unguarded statement of migration 002 is propagated, and a failing
`UPDATE` in migration 004 is propagated. -/
theorem claim_C5_patched_witness :
    (migration_002_add_notification_system execDiskError 0 =
      migration_002_afterAlter execDiskError 0) ∧
    (migration_002_afterAlter execLateError 0 =
      Except.error "constraint failed") ∧
    (migration_004_add_repeat_notification_setting
        (fun _ _ => Except.error "locked") 0 = Except.error "locked") :=
  ⟨(claim_C5_patched Nat execDiskError 0 "disk I/O error").1 rfl,
   (claim_C5_patched Nat execLateError 0 "constraint failed").2.2.1
     [SqlStmt.createNotificationSettings,
      SqlStmt.createNotificationChannels,
      SqlStmt.createNotificationHistory,
      SqlStmt.createNotificationTemplates,
      SqlStmt.createNotificationIndexes,
      SqlStmt.insertDefaultNotificationSettings]
     SqlStmt.insertDefaultNotificationTemplates [] 0 rfl rfl rfl,
   (claim_C5_patched Nat (fun _ _ => Except.error "locked") 0 "locked").2.2.2
     rfl⟩

/-! ## Claim C1 -/

/-- C1: for every registry (with its construction-time invariant of
strictly ascending versions) and every database state, if the run of
`runMigrations` propagates an error for version `v`, then: no bookkeeping
row for `v` survives; no event — in particular no transaction and no
action — of a version greater than `v` occurs in the run; and the final
state is exactly the state produced by the successfully committed
migrations before `v` in the pending list, so nothing of `v`'s rolled-back
transaction (neither its schema change nor its bookkeeping insert)
survives and no later migration is attempted. -/
theorem claim_C1 (σ : Type) (migs : List (Migration σ)) (s s' : DBState σ)
    (evs : List MigEvent) (v : Nat) (e : String)
    (hsort : (migs.map Migration.version).Pairwise (· < ·))
    (hrun : runMigrations migs s = (s', evs, some (v, e))) :
    v ∉ recordedVersions s' ∧
    (∀ ev ∈ evs, eventVersion ev ≤ v) ∧
    (∃ done m rest devs,
      migs.filter (fun m =>
        getCurrentVersion (initMigrationsTable (setForeignKeysPragma s)) <
          m.version) = done ++ m :: rest ∧
      m.version = v ∧
      runPending done (initMigrationsTable (setForeignKeysPragma s)) =
        (s', devs, none)) := by
  simp only [runMigrations] at hrun
  obtain ⟨done, m, rest, devs, hsplit, hv, hnone, hevs⟩ := runPending_error hrun
  have hsub : ((migs.filter (fun m =>
      getCurrentVersion (initMigrationsTable (setForeignKeysPragma s)) <
        m.version)).map Migration.version).Sublist
      (migs.map Migration.version) :=
    List.Sublist.map _ (List.filter_sublist _)
  have hps := List.Pairwise.sublist hsub hsort
  rw [hsplit, List.map_append] at hps
  have hcross := (List.pairwise_append.mp hps).2.2
  have hd_lt : ∀ m2 ∈ done, m2.version < v := fun m2 hm2 =>
    hv ▸ hcross m2.version (List.mem_map_of_mem _ hm2) m.version (by simp)
  have hmpend : m ∈ migs.filter (fun m =>
      getCurrentVersion (initMigrationsTable (setForeignKeysPragma s)) <
        m.version) := by
    rw [hsplit]
    exact List.mem_append_right _ (List.mem_cons_self _ _)
  have hcv : getCurrentVersion (initMigrationsTable (setForeignKeysPragma s)) <
      v := by
    have hmem := List.mem_filter.mp hmpend
    exact hv ▸ of_decide_eq_true hmem.2
  obtain ⟨rows, hrows, hrecs1⟩ := init_migTable (setForeignKeysPragma s)
  obtain ⟨hfk, hmt⟩ := runPending_none hnone
  have hs2mt := hmt rows hrows
  refine ⟨?_, ?_, done, m, rest, devs, hsplit, hv, hnone⟩
  · intro hvmem
    simp only [recordedVersions, hs2mt] at hvmem
    rcases List.mem_map.mp hvmem with ⟨r, hrmem, hrv⟩
    rcases List.mem_append.mp hrmem with hL | hR
    · have h1 : v ∈ recordedVersions (initMigrationsTable (setForeignKeysPragma s)) := by
        rw [hrecs1, ← hrv]
        exact List.mem_map_of_mem _ hL
      exact absurd (mem_recorded_le_current _ v h1) (not_le.mpr hcv)
    · rcases List.mem_map.mp hR with ⟨m2, hm2, rfl⟩
      have : m2.version < v := hd_lt m2 hm2
      simp only at hrv
      omega
  · intro ev hev
    rw [hevs] at hev
    rcases List.mem_append.mp hev with hd | htail
    · have h1 := runPending_events done
        (initMigrationsTable (setForeignKeysPragma s)) ev
        (by rw [hnone]; exact hd)
      rcases List.mem_map.mp h1 with ⟨m2, hm2, hveq⟩
      exact le_of_lt (hveq ▸ hd_lt m2 hm2)
    · simp only [List.mem_cons, List.not_mem_nil, or_false] at htail
      rcases htail with rfl | rfl | rfl <;> simp [eventVersion]

/-- C1 witness: a concrete three-entry registry whose version-2 action
throws on a fresh database; version 1 commits, the error for version 2 is
propagated, no row for version 2 survives, and no event of version 3
occurs. -/
theorem claim_C1_witness :
    (2 : Nat) ∉ recordedVersions (⟨true, some [⟨1, "one"⟩], 1⟩ : DBState Nat) ∧
    (∀ ev ∈ [MigEvent.txBegin 1, MigEvent.actionRun 1, MigEvent.rowInsert 1,
        MigEvent.txCommit 1, MigEvent.txBegin 2, MigEvent.actionRun 2,
        MigEvent.txRollback 2], eventVersion ev ≤ 2) ∧
    (∃ done m rest devs,
      exRegistryBoom.filter (fun m =>
        getCurrentVersion (initMigrationsTable (setForeignKeysPragma exFreshDB)) <
          m.version) = done ++ m :: rest ∧
      m.version = 2 ∧
      runPending done (initMigrationsTable (setForeignKeysPragma exFreshDB)) =
        (⟨true, some [⟨1, "one"⟩], 1⟩, devs, none)) :=
  claim_C1 Nat exRegistryBoom exFreshDB ⟨true, some [⟨1, "one"⟩], 1⟩
    [MigEvent.txBegin 1, MigEvent.actionRun 1, MigEvent.rowInsert 1,
     MigEvent.txCommit 1, MigEvent.txBegin 2, MigEvent.actionRun 2,
     MigEvent.txRollback 2] 2 "boom" (by decide) rfl

/-! ## Claim C2 -/

/-- C2: after any run of `runMigrations` (successful or aborted) over a
registry with the construction-time invariants (versions strictly
ascending, hence sorted and unique, and positive), if the recorded set
was a prefix-closed subset of the registry versions before the run, it
still is afterwards: no higher registry version has a recorded row while
a lower registry version is missing one. -/
theorem claim_C2 (σ : Type) (migs : List (Migration σ)) (s s' : DBState σ)
    (evs : List MigEvent) (err : Option (Nat × String))
    (hsort : (migs.map Migration.version).Pairwise (· < ·))
    (hpos : ∀ m ∈ migs, 0 < m.version)
    (hpre : PrefixClosed (migs.map Migration.version) (recordedVersions s))
    (hrun : runMigrations migs s = (s', evs, err)) :
    PrefixClosed (migs.map Migration.version) (recordedVersions s') := by
  simp only [runMigrations] at hrun
  obtain ⟨done, rest, hsplit, hrec⟩ := runPending_recorded
    (migs.filter (fun m =>
      getCurrentVersion (initMigrationsTable (setForeignKeysPragma s)) <
        m.version)) (initMigrationsTable (setForeignKeysPragma s))
  rw [hrun] at hrec
  have hrs1 : recordedVersions (initMigrationsTable (setForeignKeysPragma s)) =
      recordedVersions s := by
    rw [recorded_init, recorded_pragma]
  rw [hrs1] at hrec
  have hRle : ∀ w ∈ recordedVersions s,
      w ≤ getCurrentVersion (initMigrationsTable (setForeignKeysPragma s)) :=
    fun w hw => mem_recorded_le_current _ w (by rw [hrs1]; exact hw)
  have hDsub : ∀ m2 ∈ done, m2 ∈ migs := by
    intro m2 hm2
    have : m2 ∈ migs.filter (fun m =>
        getCurrentVersion (initMigrationsTable (setForeignKeysPragma s)) <
          m.version) := by
      rw [hsplit]
      exact List.mem_append_left _ hm2
    exact (List.mem_filter.mp this).1
  have hsub : ((migs.filter (fun m =>
      getCurrentVersion (initMigrationsTable (setForeignKeysPragma s)) <
        m.version)).map Migration.version).Sublist
      (migs.map Migration.version) :=
    List.Sublist.map _ (List.filter_sublist _)
  have hps := List.Pairwise.sublist hsub hsort
  rw [hsplit, List.map_append] at hps
  have hcross := (List.pairwise_append.mp hps).2.2
  constructor
  · intro w hw
    rw [hrec] at hw
    rcases List.mem_append.mp hw with hL | hR
    · exact hpre.1 w hL
    · rcases List.mem_map.mp hR with ⟨m2, hm2, rfl⟩
      exact List.mem_map_of_mem _ (hDsub m2 hm2)
  · intro u hu w hw hlt
    rw [hrec] at hw ⊢
    rcases List.mem_append.mp hw with hL | hR
    · exact List.mem_append_left _ (hpre.2 u hu w hL hlt)
    · rcases List.mem_map.mp hR with ⟨m2, hm2, rfl⟩
      by_cases hcu :
          getCurrentVersion (initMigrationsTable (setForeignKeysPragma s)) < u
      · rcases List.mem_map.mp hu with ⟨m1, hm1, rfl⟩
        have hm1p : m1 ∈ migs.filter (fun m =>
            getCurrentVersion (initMigrationsTable (setForeignKeysPragma s)) <
              m.version) := List.mem_filter.mpr ⟨hm1, decide_eq_true hcu⟩
        rw [hsplit] at hm1p
        rcases List.mem_append.mp hm1p with hdone | hrest
        · exact List.mem_append_right _
            (List.mem_map_of_mem _ hdone)
        · have := hcross m2.version (List.mem_map_of_mem _ hm2)
            m1.version (List.mem_map_of_mem _ hrest)
          omega
      · push_neg at hcu
        have hRne : recordedVersions s ≠ [] := by
          intro hnil
          have hcv0 : getCurrentVersion
              (initMigrationsTable (setForeignKeysPragma s)) = 0 := by
            apply current_of_recorded_nil
            rw [hrs1, hnil]
          rcases List.mem_map.mp hu with ⟨m1, hm1, rfl⟩
          have := hpos m1 hm1
          omega
        have hcvR : getCurrentVersion
            (initMigrationsTable (setForeignKeysPragma s)) ∈
              recordedVersions s := by
          rw [← hrs1]
          apply current_mem_recorded
          rw [hrs1]
          exact hRne
        rcases lt_or_eq_of_le hcu with hlt2 | heq
        · exact List.mem_append_left _ (hpre.2 u hu _ hcvR hlt2)
        · rw [heq]
          exact List.mem_append_left _ hcvR

/-- C2 witness: on a fresh database with the concrete three-entry
registry whose version-2 action throws, the recorded set after the
aborted run (only version 1) is still a prefix-closed subset of the
registry versions. -/
theorem claim_C2_witness :
    PrefixClosed (exRegistryBoom.map Migration.version)
      (recordedVersions (⟨true, some [⟨1, "one"⟩], 1⟩ : DBState Nat)) :=
  claim_C2 Nat exRegistryBoom exFreshDB ⟨true, some [⟨1, "one"⟩], 1⟩
    [MigEvent.txBegin 1, MigEvent.actionRun 1, MigEvent.rowInsert 1,
     MigEvent.txCommit 1, MigEvent.txBegin 2, MigEvent.actionRun 2,
     MigEvent.txRollback 2] (some (2, "boom")) (by decide) (by decide)
    (by unfold PrefixClosed; decide) rfl

/-! ## Claim C3 -/

/-- C3: over a registry with the construction-time invariants (strictly
ascending positive versions), when a run of `runMigrations` against a
fresh database (no bookkeeping table) completes without error, every
descriptor's action was invoked exactly once in that run; a second run
produces no event at all (so invokes no action), reports no error, leaves
the state unchanged, and `getCurrentVersion` is the same before and after
the second run. -/
theorem claim_C3 (σ : Type) (migs : List (Migration σ)) (s s1 : DBState σ)
    (evs1 : List MigEvent)
    (hfresh : s.migTable = none)
    (hpos : ∀ m ∈ migs, 0 < m.version)
    (hsort : (migs.map Migration.version).Pairwise (· < ·))
    (hrun : runMigrations migs s = (s1, evs1, none)) :
    (∀ m ∈ migs,
      evs1.countP (fun ev => decide (ev = MigEvent.actionRun m.version)) = 1) ∧
    runMigrations migs s1 = (s1, [], none) ∧
    getCurrentVersion (runMigrations migs s1).1 = getCurrentVersion s1 := by
  have hs1mt : (initMigrationsTable (setForeignKeysPragma s)).migTable =
      some [] := by
    simp [initMigrationsTable, setForeignKeysPragma, hfresh]
  have hcv0 : getCurrentVersion (initMigrationsTable (setForeignKeysPragma s)) =
      0 := by
    simp [getCurrentVersion, selectMaxVersion, hs1mt]
  have hfil : migs.filter (fun m =>
      getCurrentVersion (initMigrationsTable (setForeignKeysPragma s)) <
        m.version) = migs := by
    apply List.filter_eq_self.mpr
    intro a ha
    rw [hcv0]
    exact decide_eq_true (hpos a ha)
  simp only [runMigrations, hfil] at hrun
  obtain ⟨hfk, hmtf⟩ := runPending_none hrun
  have hs1mt2 : s1.migTable =
      some (migs.map (fun m => ⟨m.version, m.name⟩)) := by
    have := hmtf [] hs1mt
    simpa using this
  have hfk1 : s1.foreignKeys = true := by
    rw [hfk]
    simp [initMigrationsTable, setForeignKeysPragma, hfresh]
  have hrecs1 : recordedVersions s1 = migs.map Migration.version := by
    simp [recordedVersions, hs1mt2, List.map_map, Function.comp]
  have hsecond : runMigrations migs s1 = (s1, [], none) := by
    have hle : ∀ m ∈ migs, m.version ≤
        getCurrentVersion (initMigrationsTable (setForeignKeysPragma s1)) := by
      intro m hm
      have h1 : (initMigrationsTable (setForeignKeysPragma s1)).migTable =
          s1.migTable := by
        simp [initMigrationsTable, setForeignKeysPragma, hs1mt2]
      rw [getCurrentVersion_congr _ s1 h1]
      exact mem_recorded_le_current s1 _
        (by rw [hrecs1]; exact List.mem_map_of_mem _ hm)
    have hnoop := runMigrations_noop migs s1 hle
    rw [pragma_id s1 hfk1, init_id s1 _ hs1mt2] at hnoop
    exact hnoop
  refine ⟨?_, hsecond, by rw [hsecond]⟩
  intro m hm
  rw [runPending_action_count hrun m.version]
  exact countP_version_eq_one migs hsort m hm

/-- C3 witness: the two-entry always-succeeding registry, run twice from
a fresh database: each action once in the first run, an empty second
run with an unchanged version. -/
theorem claim_C3_witness :
    (∀ m ∈ exRegistryOk,
      List.countP (fun ev => decide (ev = MigEvent.actionRun m.version))
        [MigEvent.txBegin 1, MigEvent.actionRun 1, MigEvent.rowInsert 1,
         MigEvent.txCommit 1, MigEvent.txBegin 2, MigEvent.actionRun 2,
         MigEvent.rowInsert 2, MigEvent.txCommit 2] = 1) ∧
    runMigrations exRegistryOk ⟨true, some [⟨1, "one"⟩, ⟨2, "two"⟩], 2⟩ =
      (⟨true, some [⟨1, "one"⟩, ⟨2, "two"⟩], 2⟩, [], none) ∧
    getCurrentVersion (runMigrations exRegistryOk
        ⟨true, some [⟨1, "one"⟩, ⟨2, "two"⟩], 2⟩).1 =
      getCurrentVersion (⟨true, some [⟨1, "one"⟩, ⟨2, "two"⟩], 2⟩ : DBState Nat) :=
  claim_C3 Nat exRegistryOk exFreshDB ⟨true, some [⟨1, "one"⟩, ⟨2, "two"⟩], 2⟩
    [MigEvent.txBegin 1, MigEvent.actionRun 1, MigEvent.rowInsert 1,
     MigEvent.txCommit 1, MigEvent.txBegin 2, MigEvent.actionRun 2,
     MigEvent.rowInsert 2, MigEvent.txCommit 2]
    rfl (by decide) (by decide) rfl

/-! ## Helper lemmas about the statement splitter -/

theorem jsTrim_nil : jsTrim [] = [] := rfl

theorem jsEndsWith_nil : jsEndsWith [';'] [] = false := rfl

theorem parseSQLGo_nil (cur : Str) (fl : Bool) :
    parseSQLGo [] cur fl = if jsTrim cur = [] then [] else [jsTrim cur] := rfl

/-- A non-blank line whose trimmed text ends in `;` and whose uppercase
form contains `END;` always emits the buffer (including that line) and
clears the flag, when the flag is set. -/
theorem parseSQLGo_endTrigger (cur line : Str) (rest : List Str)
    (hEnd : jsEndsWith [';'] (jsTrim line) = true)
    (hInc : jsIncludes "END;".data (jsToUpper (jsTrim line)) = true) :
    parseSQLGo (line :: rest) cur true =
      jsTrim (cur ++ line ++ ['\n']) :: parseSQLGo rest [] false := by
  have hne : jsTrim line ≠ [] := by
    intro h
    rw [h] at hEnd
    exact absurd hEnd (by decide)
  simp [parseSQLGo, hne, hEnd, hInc]

/-- With the flag set, a non-blank line whose uppercase form does not
contain `END;` never emits: the line is appended to the buffer and the
flag stays set. -/
theorem parseSQLGo_inTrigger_continue (cur line : Str) (rest : List Str)
    (hne : jsTrim line ≠ [])
    (hInc : jsIncludes "END;".data (jsToUpper (jsTrim line)) = false) :
    parseSQLGo (line :: rest) cur true =
      parseSQLGo rest (cur ++ line ++ ['\n']) true := by
  cases hE : jsEndsWith [';'] (jsTrim line) <;>
    simp [parseSQLGo, hne, hInc, hE]

/-- A non-blank line opening with `CREATE TRIGGER` and without `END;`
sets the flag and continues buffering, whatever the incoming flag. -/
theorem parseSQLGo_startTrigger (cur line : Str) (rest : List Str) (fl : Bool)
    (hstart : jsStartsWith "CREATE TRIGGER".data (jsToUpper (jsTrim line)) = true)
    (hne : jsTrim line ≠ [])
    (hInc : jsIncludes "END;".data (jsToUpper (jsTrim line)) = false) :
    parseSQLGo (line :: rest) cur fl =
      parseSQLGo rest (cur ++ line ++ ['\n']) true := by
  cases hE : jsEndsWith [';'] (jsTrim line) <;>
    simp [parseSQLGo, hne, hstart, hInc, hE]

theorem joinNl_nil : joinNl [] = [] := rfl

theorem joinNl_cons (l : Str) (g : List Str) :
    joinNl (l :: g) = (l ++ ['\n']) ++ joinNl g := by
  simp [joinNl]

theorem joinNl_append_single (g : List Str) (l : Str) :
    joinNl (g ++ [l]) = joinNl g ++ (l ++ ['\n']) := by
  simp [joinNl]

/-- Inside a trigger, a body of non-blank lines without `END;` followed by
the closing line is accumulated into a single emitted statement. -/
theorem parseSQLGo_triggerBody (fin : Str)
    (hfin1 : jsEndsWith [';'] (jsTrim fin) = true)
    (hfin2 : jsIncludes "END;".data (jsToUpper (jsTrim fin)) = true) :
    ∀ (body : List Str) (cur : Str),
      (∀ l ∈ body, jsTrim l ≠ [] ∧
        jsIncludes "END;".data (jsToUpper (jsTrim l)) = false) →
      parseSQLGo (body ++ [fin]) cur true =
        [jsTrim (cur ++ joinNl (body ++ [fin]))] := by
  intro body
  induction body with
  | nil =>
    intro cur hbody
    rw [List.nil_append,
      parseSQLGo_endTrigger cur fin [] hfin1 hfin2]
    simp [parseSQLGo_nil, joinNl_cons, joinNl_nil, jsTrim_nil,
      List.append_assoc]
  | cons l body ih =>
    intro cur hbody
    have hl := hbody l (List.mem_cons_self _ _)
    rw [List.cons_append,
      parseSQLGo_inTrigger_continue cur l _ hl.1 hl.2,
      ih (cur ++ l ++ ['\n'])
        (fun x hx => hbody x (List.mem_cons_of_mem _ hx))]
    simp [joinNl_cons, List.append_assoc]

/-! ## Claim C8 -/

/-- C8: on the two-table input the splitter returns exactly two
statements, each ending with the terminator `;`. -/
theorem claim_C8 :
    parseSQL "CREATE TABLE t (id INT);\nCREATE TABLE u (id INT);\n".data =
      ["CREATE TABLE t (id INT);".data, "CREATE TABLE u (id INT);".data] ∧
    (parseSQL "CREATE TABLE t (id INT);\nCREATE TABLE u (id INT);\n".data).length
      = 2 ∧
    ∀ st ∈ parseSQL "CREATE TABLE t (id INT);\nCREATE TABLE u (id INT);\n".data,
      jsEndsWith [';'] st = true := by
  refine ⟨by decide, by decide, by decide⟩

/-! ## Claim C9 -/

/-- C9: closing-marker detection is substring-based: with the in-trigger
flag set, a line whose trimmed text ends with `;` and whose uppercase form
contains the substring `END;` anywhere (here inside the word `trend;`,
not as a standalone closing keyword) clears the flag and emits the whole
accumulated buffer as one statement. -/
theorem claim_C9 (cur line : Str) (rest : List Str)
    (hEnd : jsEndsWith [';'] (jsTrim line) = true)
    (hInc : jsIncludes "END;".data (jsToUpper (jsTrim line)) = true) :
    parseSQLGo (line :: rest) cur true =
      jsTrim (cur ++ line ++ ['\n']) :: parseSQLGo rest [] false :=
  parseSQLGo_endTrigger cur line rest hEnd hInc

/-- C9 witness: the line `UPDATE t SET x = trend;` contains `END;` only
inside `trend;`, yet it ends the trigger buffer. -/
theorem claim_C9_witness :
    parseSQLGo ["  UPDATE t SET x = trend;".data]
        "CREATE TRIGGER trg AFTER UPDATE ON t BEGIN\n".data true =
      [jsTrim ("CREATE TRIGGER trg AFTER UPDATE ON t BEGIN\n".data ++
        "  UPDATE t SET x = trend;".data ++ ['\n'])] := by
  rw [claim_C9 _ _ _ (by decide) (by decide)]
  rfl

/-! ## Claim C4 -/

/-- C4: an input whose lines form one trigger definition — a header line
opening with `CREATE TRIGGER`, non-blank body lines (some of which may end
in the terminator `;`) none of which contains the closing marker `END;`,
and a final line ending in `;` and containing `END;` — is returned by
`parseSQL` as exactly one statement spanning the whole trigger. -/
theorem claim_C4 (sql hdr fin : Str) (body : List Str)
    (hsplit : splitLines sql = hdr :: body ++ [fin])
    (hhdr1 : jsStartsWith "CREATE TRIGGER".data (jsToUpper (jsTrim hdr)) = true)
    (hhdr2 : jsIncludes "END;".data (jsToUpper (jsTrim hdr)) = false)
    (hbody : ∀ l ∈ body, jsTrim l ≠ [] ∧
      jsIncludes "END;".data (jsToUpper (jsTrim l)) = false)
    (hfin1 : jsEndsWith [';'] (jsTrim fin) = true)
    (hfin2 : jsIncludes "END;".data (jsToUpper (jsTrim fin)) = true) :
    parseSQL sql = [jsTrim (joinNl (hdr :: body ++ [fin]))] := by
  have hne : jsTrim hdr ≠ [] := by
    intro h
    rw [h] at hhdr1
    exact absurd hhdr1 (by decide)
  rw [parseSQL, hsplit, List.cons_append,
    parseSQLGo_startTrigger [] hdr (body ++ [fin]) false hhdr1 hne hhdr2,
    parseSQLGo_triggerBody fin hfin1 hfin2 body _ hbody]
  simp [joinNl_cons, List.append_assoc]

set_option maxRecDepth 8192 in
/-- C4 witness: the `scheduler_settings_updated_at` trigger of migration
003, whose body line `UPDATE ... WHERE id = NEW.id;` ends in `;` before
the closing `END;`, is returned as one single statement. -/
theorem claim_C4_witness :
    parseSQL exTriggerSQL =
      [jsTrim (joinNl
        ("CREATE TRIGGER IF NOT EXISTS scheduler_settings_updated_at".data ::
          ["AFTER UPDATE ON scheduler_settings".data,
           "FOR EACH ROW".data,
           "BEGIN".data,
           "    UPDATE scheduler_settings SET updated_at = CURRENT_TIMESTAMP WHERE id = NEW.id;".data] ++
          ["END;".data]))] :=
  claim_C4 exTriggerSQL
    "CREATE TRIGGER IF NOT EXISTS scheduler_settings_updated_at".data
    "END;".data
    ["AFTER UPDATE ON scheduler_settings".data,
     "FOR EACH ROW".data,
     "BEGIN".data,
     "    UPDATE scheduler_settings SET updated_at = CURRENT_TIMESTAMP WHERE id = NEW.id;".data]
    (by decide) (by decide) (by decide) (by decide) (by decide) (by decide)


/-! ## Claim C10: partition lemmas for the splitter -/

theorem jsTrim_eq_nil_iff (s : Str) :
    jsTrim s = [] ↔ ∀ c ∈ s, isWsChar c = true := by
  unfold jsTrim
  rw [List.reverse_eq_nil_iff, List.dropWhile_eq_nil_iff]
  constructor
  · intro h c hc
    rcases List.mem_append.mp
        ((List.takeWhile_append_dropWhile (p := isWsChar) (l := s)) ▸ hc) with
      ht | hd
    · exact List.mem_takeWhile_imp ht
    · exact h c (List.mem_reverse.mpr hd)
  · intro h c hc
    exact h c ((List.dropWhile_sublist _).mem (List.mem_reverse.mp hc))

theorem mem_dropWhile_of_not_ws {c : Char} {l : Str} (hc : c ∈ l)
    (hw : isWsChar c = false) : c ∈ l.dropWhile isWsChar := by
  rcases List.mem_append.mp
      ((List.takeWhile_append_dropWhile (p := isWsChar) (l := l)) ▸ hc) with
    ht | hd
  · rw [List.mem_takeWhile_imp ht] at hw
    cases hw
  · exact hd

theorem mem_jsTrim_of_not_ws {c : Char} {s : Str} (hc : c ∈ s)
    (hw : isWsChar c = false) : c ∈ jsTrim s := by
  unfold jsTrim
  rw [List.mem_reverse]
  exact mem_dropWhile_of_not_ws
    (List.mem_reverse.mpr (mem_dropWhile_of_not_ws hc hw)) hw

theorem exists_not_ws_of_trim_ne_nil {s : Str} (h : jsTrim s ≠ []) :
    ∃ c ∈ s, isWsChar c = false := by
  by_contra hcon
  push_neg at hcon
  apply h
  rw [jsTrim_eq_nil_iff]
  intro c hc
  have := hcon c hc
  cases hic : isWsChar c with
  | false => exact absurd hic this
  | true => rfl

theorem jsTrim_joinNl_ne_nil {g : List Str} {l : Str} (hl : l ∈ g)
    (hne : jsTrim l ≠ []) : jsTrim (joinNl g) ≠ [] := by
  obtain ⟨c, hc, hw⟩ := exists_not_ws_of_trim_ne_nil hne
  have hcj : c ∈ joinNl g := by
    unfold joinNl
    exact List.mem_flatten.mpr
      ⟨l ++ ['\n'], List.mem_map_of_mem _ hl, List.mem_append_left _ hc⟩
  exact List.ne_nil_of_mem (mem_jsTrim_of_not_ws hcj hw)

theorem jsTrim_isEmpty_false {l : Str} (hne : jsTrim l ≠ []) :
    (jsTrim l).isEmpty = false := by
  cases h : jsTrim l with
  | nil => exact absurd h hne
  | cons a t => rfl

/-- Each non-blank line either emits the buffer extended with it, or is
appended to the buffer, the flag becoming set exactly when the line opens
a trigger or it already was. -/
theorem parseSQLGo_cons_step (line : Str) (rest : List Str) (cur : Str)
    (fl : Bool) (hne : jsTrim line ≠ []) :
    parseSQLGo (line :: rest) cur fl =
        jsTrim (cur ++ line ++ ['\n']) :: parseSQLGo rest [] false ∨
    parseSQLGo (line :: rest) cur fl =
        parseSQLGo rest (cur ++ line ++ ['\n'])
          (jsStartsWith "CREATE TRIGGER".data (jsToUpper (jsTrim line)) || fl) := by
  cases hSW : jsStartsWith "CREATE TRIGGER".data (jsToUpper (jsTrim line)) <;>
  cases hE : jsEndsWith [';'] (jsTrim line) <;>
  cases hI : jsIncludes "END;".data (jsToUpper (jsTrim line)) <;>
  cases fl <;>
    simp [parseSQLGo, hne, hSW, hE, hI]

/-- The splitter partitions the non-blank input lines, in order, into
consecutive non-empty groups, one group per returned statement; each
statement is the trimmed newline-join of its group. -/
theorem parseSQLGo_partition :
    ∀ (lines : List Str) (pending : List Str) (fl : Bool),
      (∀ l ∈ pending, jsTrim l ≠ []) →
      ∃ groups : List (List Str),
        groups.flatten = pending ++ lines.filter (fun l => !(jsTrim l).isEmpty) ∧
        (∀ g ∈ groups, g ≠ [] ∧ ∀ l ∈ g, jsTrim l ≠ []) ∧
        parseSQLGo lines (joinNl pending) fl =
          groups.map (fun g => jsTrim (joinNl g)) := by
  intro lines
  induction lines with
  | nil =>
    intro pending fl hp
    by_cases hpe : pending = []
    · subst hpe
      exact ⟨[], by simp, by simp,
        by simp [parseSQLGo_nil, joinNl_nil, jsTrim_nil]⟩
    · obtain ⟨p, hpmem⟩ : ∃ p, p ∈ pending := by
        cases pending with
        | nil => exact absurd rfl hpe
        | cons a t => exact ⟨a, List.mem_cons_self a t⟩
      have hne : jsTrim (joinNl pending) ≠ [] :=
        jsTrim_joinNl_ne_nil hpmem (hp p hpmem)
      refine ⟨[pending], by simp, ?_, ?_⟩
      · intro g hg
        rw [List.mem_singleton] at hg
        subst hg
        exact ⟨hpe, hp⟩
      · rw [parseSQLGo_nil, if_neg hne]
        simp
  | cons line rest ih =>
    intro pending fl hp
    by_cases hne : jsTrim line = []
    · have hstep : parseSQLGo (line :: rest) (joinNl pending) fl =
          parseSQLGo rest (joinNl pending) fl := by
        simp [parseSQLGo, hne]
      obtain ⟨groups, h1, h2, h3⟩ := ih pending fl hp
      refine ⟨groups, ?_, h2, by rw [hstep]; exact h3⟩
      rw [h1]
      have : (jsTrim line).isEmpty = true := by rw [hne]; rfl
      simp [List.filter_cons, this]
    · have hfe := jsTrim_isEmpty_false hne
      rcases parseSQLGo_cons_step line rest (joinNl pending) fl hne with
        hstep | hstep
      · obtain ⟨groups, h1, h2, h3⟩ := ih [] false (by simp)
        refine ⟨(pending ++ [line]) :: groups, ?_, ?_, ?_⟩
        · rw [List.flatten_cons, h1]
          simp [List.filter_cons, hfe, List.append_assoc]
        · intro g hg
          rcases List.mem_cons.mp hg with rfl | hgs
          · refine ⟨by simp, ?_⟩
            intro l hl
            rcases List.mem_append.mp hl with h | h
            · exact hp l h
            · rw [List.mem_singleton] at h
              subst h
              exact hne
          · exact h2 g hgs
        · rw [hstep]
          have h3b : parseSQLGo rest [] false =
              groups.map (fun g => jsTrim (joinNl g)) := h3
          rw [h3b, List.map_cons]
          simp [joinNl_append_single, List.append_assoc]
      · have hps : ∀ l ∈ pending ++ [line], jsTrim l ≠ [] := by
          intro l hl
          rcases List.mem_append.mp hl with h | h
          · exact hp l h
          · rw [List.mem_singleton] at h
            subst h
            exact hne
        obtain ⟨groups, h1, h2, h3⟩ := ih (pending ++ [line]) _ hps
        refine ⟨groups, ?_, h2, ?_⟩
        · rw [h1]
          simp [List.filter_cons, hfe, List.append_assoc]
        · rw [hstep]
          have hcur : joinNl pending ++ line ++ ['\n'] =
              joinNl (pending ++ [line]) := by
            simp [joinNl_append_single, List.append_assoc]
          rw [hcur]
          exact h3

/-- C10: for every input string the splitter returns without error; it
partitions the non-blank input lines, in input order, into non-empty
groups — so every non-blank line lands in exactly one returned statement
and blank lines (also inside compound bodies) in none — each returned
statement being the trimmed newline-join of its group, and every returned
statement is non-empty after trimming. -/
theorem claim_C10 (sql : Str) :
    ∃ groups : List (List Str),
      groups.flatten = (splitLines sql).filter (fun l => !(jsTrim l).isEmpty) ∧
      (∀ g ∈ groups, g ≠ [] ∧ ∀ l ∈ g, jsTrim l ≠ []) ∧
      parseSQL sql = groups.map (fun g => jsTrim (joinNl g)) ∧
      (∀ st ∈ parseSQL sql, jsTrim st ≠ []) := by
  obtain ⟨groups, h1, h2, h3⟩ :=
    parseSQLGo_partition (splitLines sql) [] (false) (by simp)
  have h3b : parseSQL sql = groups.map (fun g => jsTrim (joinNl g)) := h3
  refine ⟨groups, by simpa using h1, h2, h3b, ?_⟩
  intro st hst
  rw [h3b] at hst
  rcases List.mem_map.mp hst with ⟨g, hg, rfl⟩
  obtain ⟨hgne, hgl⟩ := h2 g hg
  obtain ⟨a, ha⟩ : ∃ a, a ∈ g := by
    cases g with
    | nil => exact absurd rfl hgne
    | cons a t => exact ⟨a, List.mem_cons_self a t⟩
  obtain ⟨c, hc, hw⟩ := exists_not_ws_of_trim_ne_nil (hgl a ha)
  have hcj : c ∈ joinNl g := by
    unfold joinNl
    exact List.mem_flatten.mpr
      ⟨a ++ ['\n'], List.mem_map_of_mem _ ha, List.mem_append_left _ hc⟩
  exact List.ne_nil_of_mem
    (mem_jsTrim_of_not_ws (mem_jsTrim_of_not_ws hcj hw) hw)


/-- C10 witness: the partition property evaluated at a concrete input with
a blank line between two statements. -/
theorem claim_C10_witness :
    ∃ groups : List (List Str),
      groups.flatten =
        (splitLines "CREATE TABLE t (x INT);\n\nSELECT 1;".data).filter
          (fun l => !(jsTrim l).isEmpty) ∧
      (∀ g ∈ groups, g ≠ [] ∧ ∀ l ∈ g, jsTrim l ≠ []) ∧
      parseSQL "CREATE TABLE t (x INT);\n\nSELECT 1;".data =
        groups.map (fun g => jsTrim (joinNl g)) ∧
      (∀ st ∈ parseSQL "CREATE TABLE t (x INT);\n\nSELECT 1;".data,
        jsTrim st ≠ []) :=
  claim_C10 "CREATE TABLE t (x INT);\n\nSELECT 1;".data

end Migrations
